import Mathlib

/-!
Verification of the Replicheck duplicate-detection core: a shallow embedding of
the block data model (replicheck/parser.py), the Jaccard similarity helper
(replicheck/utils.py), the pairwise duplicate matcher (replicheck/detector.py,
called Strategy A), and the exact-hash duplicate matcher
(replicheck/tools/Duplication/Duplication.py, called Strategy B), together with
theorems settling the specified properties of these components.

Python floats are modelled by the rationals: every arithmetic operation the
code performs on similarity values (division of small integer cardinalities,
comparison against thresholds) is exact in both number systems for the
properties considered here.
-/

namespace Replicheck

/-- Source location of a code block, as built by CodeParser: a file path and
1-based start and end lines. -/
structure Location where
  file : String
  start_line : Nat
  end_line : Nat
deriving DecidableEq

/-- Well-formed code block as produced by CodeParser.parse_file: an ordered
token sequence plus a location; the tree-sitter path additionally records the
capture name under the key named type, modelled by the optional kind field. -/
structure CodeBlock where
  tokens : List String
  location : Location
  kind : Option String := none
deriving DecidableEq

/-- Embedding of utils.calculate_similarity: Jaccard similarity of the two
token lists viewed as sets, returning intersection over union when the union
is nonempty and 0.0 otherwise. -/
def calculate_similarity (tokens1 tokens2 : List String) : ℚ :=
  let set1 := tokens1.toFinset
  let set2 := tokens2.toFinset
  let intersection := (set1 ∩ set2).card
  let union := (set1 ∪ set2).card
  if 0 < union then (intersection : ℚ) / (union : ℚ) else 0

namespace Duplication

/-- Blocks surviving the min-size filter of Strategy B (and likewise the size
guards of Strategy A): the code skips a block exactly when
len(tokens) < min_size, so a block is kept iff min_size <= len(tokens). -/
def filteredBlocks (min_size : Nat) (code_blocks : List CodeBlock) : List CodeBlock :=
  code_blocks.filter (fun b => decide (min_size ≤ b.tokens.length))

/-- Distinct token sequences of the given blocks in first-occurrence order:
the key order of the Python dict duplicates_by_tokens built by the first loop
of Duplication.find_duplicates. -/
def keysInOrder : List CodeBlock → List (List String)
  | [] => []
  | b :: rest => b.tokens :: (keysInOrder rest).filter (fun k => !decide (k = b.tokens))

/-- Cross-file flag of a member list: the code forms the set of member file
paths and tests whether it has more than one element. -/
def crossFile (blocks : List CodeBlock) : Bool :=
  decide (1 < ((blocks.map (fun b => b.location.file)).toFinset.card))

/-- Duplicate group record emitted by Strategy B, with the exact field set the
Python dict carries. -/
structure DuplicateGroup where
  size : Nat
  num_duplicates : Nat
  locations : List Location
  cross_file : Bool
  tokens : List String
  similarity : ℚ
deriving DecidableEq

/-- Embedding of the group-construction block at the end of
Duplication.find_duplicates, applied to one token key and its member list. -/
def mkGroup (token_key : List String) (blocks : List CodeBlock) : DuplicateGroup :=
  { size := token_key.length
    num_duplicates := blocks.length
    locations := blocks.map (fun b => b.location)
    cross_file := crossFile blocks
    tokens := token_key
    similarity := 1 }

/-- Contents of the dict duplicates_by_tokens after the first loop of
Duplication.find_duplicates: each distinct surviving token sequence, in
first-insertion order, paired with its member blocks in scan order. -/
def groupsWithMembers (min_size : Nat) (code_blocks : List CodeBlock) :
    List (List String × List CodeBlock) :=
  let filtered := filteredBlocks min_size code_blocks
  (keysInOrder filtered).map
    (fun k => (k, filtered.filter (fun b => decide (b.tokens = k))))

/-- Embedding of DuplicateDetector.find_duplicates from
replicheck/tools/Duplication/Duplication.py (Strategy B, exact-hash grouping):
group surviving blocks by token sequence and emit one DuplicateGroup per key
with at least two members. -/
def find_duplicates (min_size : Nat) (code_blocks : List CodeBlock) :
    List DuplicateGroup :=
  (groupsWithMembers min_size code_blocks).filterMap
    (fun km => if km.2.length < 2 then none else some (mkGroup km.1 km.2))

end Duplication

namespace Detector

/-- Pair record emitted by Strategy A, with the exact field set the Python
dict carries. -/
structure PairMatch where
  block1 : Location
  block2 : Location
  similarity : ℚ
  size : Nat
deriving DecidableEq

/-- Embedding of the inner-loop body of detector.DuplicateDetector
find_duplicates for one ordered pair: skip the second block when it is below
min_size, skip when the relative size gap exceeds 1 - min_similarity, compute
the Jaccard similarity otherwise, and emit a record when it reaches
min_similarity.

Caveat kept faithful in spirit: when both blocks are empty (possible only with
min_size = 0) the Python code raises ZeroDivisionError in the gap test; the
rational embedding makes 0 / 0 = 0 there. No theorem below depends on that
case. -/
def comparePair (min_similarity : ℚ) (min_size : Nat) (block1 block2 : CodeBlock) :
    Option PairMatch :=
  let size1 := block1.tokens.length
  let size2 := block2.tokens.length
  if size2 < min_size then none
  else if 1 - min_similarity < |(size1 : ℚ) - (size2 : ℚ)| / ((max size1 size2 : Nat) : ℚ)
  then none
  else
    let similarity := calculate_similarity block1.tokens block2.tokens
    if min_similarity ≤ similarity then
      some { block1 := block1.location
             block2 := block2.location
             similarity := similarity
             size := size1 }
    else none

/-- Embedding of the doubly nested loop of detector.DuplicateDetector
find_duplicates: each block below min_size is skipped as the left element, and
every later block of the working list is tried as the right element. -/
def pairLoop (min_similarity : ℚ) (min_size : Nat) : List CodeBlock → List PairMatch
  | [] => []
  | block1 :: rest =>
    (if block1.tokens.length < min_size then []
     else rest.filterMap (comparePair min_similarity min_size block1))
      ++ pairLoop min_similarity min_size rest

/-- Embedding of the in-place list.sort call: Python list.sort is a stable
sort by the key len(tokens), modelled by the stable List.mergeSort on the
comparison of token counts. -/
def sortBlocks (code_blocks : List CodeBlock) : List CodeBlock :=
  code_blocks.mergeSort (fun a b => decide (a.tokens.length ≤ b.tokens.length))

/-- Embedding of DuplicateDetector.find_duplicates from replicheck/detector.py
(Strategy A, pairwise Jaccard): the method first sorts its argument list in
place, then scans ordered pairs. The returned pair is (result list, state of
the caller-visible argument list after the call), making the in-place
mutation explicit. -/
def find_duplicates (min_similarity : ℚ) (min_size : Nat)
    (code_blocks : List CodeBlock) : List PairMatch × List CodeBlock :=
  let sorted := sortBlocks code_blocks
  (pairLoop min_similarity min_size sorted, sorted)

end Detector

namespace Parser

/-- Value carried by a Python ast.Constant node, restricted to the literal
kinds relevant to tokenization. -/
inductive PyConst where
  | int (n : Int)
  | str (s : String)
  | bool (b : Bool)
  | noneVal
deriving DecidableEq

/-- Embedding of the Python builtin str applied to a constant value, as done
by the expression str(child.value) in CodeParser._tokenize_python. Note that
this renders the semantic value: the spelling of the source literal is gone
from the ast.Constant node. -/
def pyStr : PyConst → String
  | .int n => toString n
  | .str s => s
  | .bool true => "True"
  | .bool false => "False"
  | .noneVal => "None"

/-- Python abstract syntax tree shape as observed by CodeParser._parse_python
and CodeParser._tokenize_python: those methods look only at whether a node is
a Name (reading its id), a Constant (reading its value), a FunctionDef or
ClassDef (reading name, lineno, end_lineno), and at the child list of every
node in
field order (document order); all remaining node kinds are collapsed into
other. -/
inductive PyAst where
  | Name (id : String)
  | Constant (value : PyConst)
  | FunctionDef (name : String) (lineno : Nat) (end_lineno : Nat) (body : List PyAst)
  | ClassDef (name : String) (lineno : Nat) (end_lineno : Nat) (body : List PyAst)
  | Other (body : List PyAst)

/-- Child list of a node, the order ast.iter_child_nodes yields them. -/
def PyAst.children : PyAst → List PyAst
  | .Name _ => []
  | .Constant _ => []
  | .FunctionDef _ _ _ cs => cs
  | .ClassDef _ _ _ cs => cs
  | .Other cs => cs

mutual

/-- Node count of a tree, used as the breadth-first traversal measure. -/
def PyAst.size : PyAst → Nat
  | .Name _ => 1
  | .Constant _ => 1
  | .FunctionDef _ _ _ cs => 1 + sizeList cs
  | .ClassDef _ _ _ cs => 1 + sizeList cs
  | .Other cs => 1 + sizeList cs

/-- Total node count of a forest. -/
def sizeList : List PyAst → Nat
  | [] => 0
  | c :: cs => PyAst.size c + sizeList cs

end

theorem sizeList_append (l1 l2 : List PyAst) :
    sizeList (l1 ++ l2) = sizeList l1 + sizeList l2 := by
  induction l1 with
  | nil => simp [sizeList]
  | cons c cs ih => simp [sizeList, ih]; ring

theorem sizeList_children_lt (n : PyAst) : sizeList n.children < PyAst.size n := by
  cases n <;> simp [PyAst.children, PyAst.size, sizeList]

theorem walkBFS_measure (n : PyAst) (todo : List PyAst) :
    sizeList (todo ++ n.children) < sizeList (n :: todo) := by
  simp [sizeList_append, sizeList]
  have h := sizeList_children_lt n
  omega

/-- Embedding of Python ast.walk: a breadth-first traversal driven by a
first-in first-out queue, yielding each dequeued node and enqueuing its
children. The CPython implementation is a deque popped from the left and
extended with iter_child_nodes of the popped node. -/
def walkBFS (l : List PyAst) : List PyAst :=
  match l with
  | [] => []
  | n :: todo => n :: walkBFS (todo ++ n.children)
termination_by sizeList l
decreasing_by
  exact walkBFS_measure _ _

/-- Token contributed by a single walked node in
CodeParser._tokenize_python: the id of a Name node, str of the value of a
Constant node, nothing otherwise. -/
def tokenOf : PyAst → Option String
  | .Name id => some id
  | .Constant v => some (pyStr v)
  | _ => none

/-- Embedding of CodeParser._tokenize_python: walk the subtree with ast.walk
(breadth first, including the node itself) and collect Name ids and
str-rendered Constant values. -/
def tokenize_python (node : PyAst) : List String :=
  (walkBFS [node]).filterMap tokenOf

/-- Declared name of a function or class definition node, when the node is
one. -/
def defNameOf : PyAst → Option String
  | .FunctionDef name _ _ _ => some name
  | .ClassDef name _ _ _ => some name
  | _ => none

/-- Embedding of CodeParser._parse_python on an already parsed tree: walk the
whole tree with ast.walk and, for every FunctionDef or ClassDef node, emit a
block whose tokens are the declared name followed by the subtree tokens, with
the 1-based line span of the node. -/
def parse_python (file_path : String) (tree : PyAst) : List CodeBlock :=
  (walkBFS [tree]).filterMap
    (fun node =>
      match node with
      | .FunctionDef name lineno end_lineno cs =>
        some { tokens := name :: tokenize_python (.FunctionDef name lineno end_lineno cs)
               location := { file := file_path, start_line := lineno, end_line := end_lineno } }
      | .ClassDef name lineno end_lineno cs =>
        some { tokens := name :: tokenize_python (.ClassDef name lineno end_lineno cs)
               location := { file := file_path, start_line := lineno, end_line := end_lineno } }
      | _ => none)

mutual

/-- Modelled from the spec: the token sequence the specification describes for
the native path, namely every identifier and literal of the subtree in
depth-first document order. Tokens are rendered exactly as the code renders
them so that only the traversal order is compared against the code. -/
def specTokensDFS : PyAst → List String
  | .Name id => [id]
  | .Constant v => [pyStr v]
  | .FunctionDef _ _ _ cs => specTokensDFSList cs
  | .ClassDef _ _ _ cs => specTokensDFSList cs
  | .Other cs => specTokensDFSList cs

/-- Depth-first document-order token collection over a forest. -/
def specTokensDFSList : List PyAst → List String
  | [] => []
  | c :: cs => specTokensDFS c ++ specTokensDFSList cs

end

/-- Concrete tree-sitter syntax node: a grammar type name, byte span, row span
(0-based, as tree-sitter reports start_point and end_point), and children. -/
inductive TSNode where
  | mk (nodeType : String) (startByte endByte : Nat) (startRow endRow : Nat)
       (children : List TSNode)

/-- Grammar type name of a node. -/
def TSNode.nodeType : TSNode → String
  | .mk t _ _ _ _ _ => t

/-- Start byte of a node. -/
def TSNode.startByte : TSNode → Nat
  | .mk _ s _ _ _ _ => s

/-- End byte of a node. -/
def TSNode.endByte : TSNode → Nat
  | .mk _ _ e _ _ _ => e

/-- Start row of a node. -/
def TSNode.startRow : TSNode → Nat
  | .mk _ _ _ r _ _ => r

/-- End row of a node. -/
def TSNode.endRow : TSNode → Nat
  | .mk _ _ _ _ r _ => r

/-- Children of a node. -/
def TSNode.children : TSNode → List TSNode
  | .mk _ _ _ _ _ cs => cs

/-- Node types CodeParser._tokenize_tree_sitter_node treats as identifiers. -/
def identifierTypes : List String :=
  ["identifier", "property_identifier", "shorthand_property_identifier", "type_identifier"]

/-- Node types CodeParser._tokenize_tree_sitter_node treats as literals. -/
def literalTypes : List String := ["string", "number"]

/-- Byte slice content[start_byte:end_byte] of the file content, the content
being modelled at byte granularity by a character list. -/
def sliceText (content : List Char) (s e : Nat) : List Char :=
  (content.drop s).take (e - s)

/-- Truthiness of token_text.strip(): the slice contains at least one
non-whitespace character. -/
def stripNonempty (cs : List Char) : Bool :=
  cs.any (fun c => !c.isWhitespace)

mutual

/-- Embedding of CodeParser._tokenize_tree_sitter_node: a depth-first
pre-order walk that, at each node whose type is identifier-like or
literal-like, appends the byte slice of the source text when it is non-blank,
then recurses into the children in order. -/
def tokenize_tree_sitter_node (content : List Char) : TSNode → List String
  | .mk ty s e _ _ cs =>
    (if ty ∈ identifierTypes then
      (if stripNonempty (sliceText content s e) then [String.mk (sliceText content s e)] else [])
     else if ty ∈ literalTypes then
      (if stripNonempty (sliceText content s e) then [String.mk (sliceText content s e)] else [])
     else [])
      ++ tokenizeForest content cs

/-- Token collection over a forest of sibling nodes, left to right. -/
def tokenizeForest (content : List Char) : List TSNode → List String
  | [] => []
  | n :: rest => tokenize_tree_sitter_node content n ++ tokenizeForest content rest

end

mutual

/-- Pre-order list of all nodes of a subtree. -/
def TSNode.subnodes : TSNode → List TSNode
  | .mk ty s e rs re cs => .mk ty s e rs re cs :: subnodesForest cs

/-- Pre-order node lists of a forest, concatenated. -/
def subnodesForest : List TSNode → List TSNode
  | [] => []
  | n :: rest => TSNode.subnodes n ++ subnodesForest rest

end

/-- Outcome of opening and reading a file, abstracted by what
CodeParser.parse_file observes of the content: either the open or decode
raises (FileNotFoundError, PermissionError, UnicodeDecodeError — none of them
caught by the code), or the content is readable and is abstracted by the two
parses applied to it: the ast.parse outcome (none when ast.parse raises
SyntaxError) and the tree-sitter parse-and-query outcome (none when the
tree-sitter machinery raises, which the code catches; otherwise the capture
list together with the content bytes). -/
inductive FileAccess where
  | unreadable (err : String)
  | readable (pyResult : Option PyAst)
             (tsResult : Option (List (TSNode × String) × List Char))

/-- Embedding of the per-capture block construction of
CodeParser._parse_with_tree_sitter once parsing and the query succeeded:
tokenize each captured node and keep it when the token list is nonempty, with
1-based line numbers from the 0-based node rows, recording the capture name.
The captures-as-list branch of the code is modelled; the captures-as-dict
branch builds the same blocks grouped by capture name. -/
def parse_with_tree_sitter (file_path : String)
    (tsResult : Option (List (TSNode × String) × List Char)) : List CodeBlock :=
  match tsResult with
  | none => []
  | some (captures, content) =>
    captures.filterMap
      (fun nc =>
        let tokens := tokenize_tree_sitter_node content nc.1
        if tokens.isEmpty then none
        else some { tokens := tokens
                    location := { file := file_path
                                  start_line := nc.1.startRow + 1
                                  end_line := nc.1.endRow + 1 }
                    kind := some nc.2 })

/-- Extensions CodeParser supports. -/
def supported_extensions : List String := [".py", ".js", ".jsx", ".cs", ".ts", ".tsx"]

/-- Embedding of CodeParser.parse_file: unsupported suffixes return an empty
list before any file access; then the file is opened and read with no
exception handler, so an unreadable file propagates its error; a Python file
is parsed with ast.parse (SyntaxError caught, giving an empty list) and walked
by _parse_python; every other supported suffix goes through the tree-sitter
path whose internal exceptions are caught, giving an empty list. -/
def parse_file (file_path : String) (suffix : String) (f : FileAccess) :
    Except String (List CodeBlock) :=
  if suffix ∈ supported_extensions then
    match f with
    | .unreadable err => .error err
    | .readable pyResult tsResult =>
      if suffix = ".py" then
        match pyResult with
        | none => .ok []
        | some tree => .ok (parse_python file_path tree)
      else .ok (parse_with_tree_sitter file_path tsResult)
  else .ok []

end Parser

namespace RawDuplication

/-- Value found under the key named tokens of a block dict: the key can be
absent, hold a non-sequence value (on which the builtin len raises TypeError),
or hold a list of token strings. -/
inductive PyTokens where
  | absent
  | notSeq
  | seq (ts : List String)
deriving DecidableEq

/-- Value found under the key named location of a block dict: the key can be
absent or hold a dict whose own file, start_line and end_line keys may each be
absent (modelled by none). -/
inductive PyLoc where
  | absent
  | present (file : Option String) (start_line : Option Int) (end_line : Option Int)
deriving DecidableEq

/-- Block dict as the matcher receives it, with possibly malformed fields. -/
structure RawBlock where
  tokens : PyTokens
  location : PyLoc
deriving DecidableEq

/-- Location dict built defensively by the final loop of
Duplication.find_duplicates via loc.get, so each field may be None. -/
structure RawLocation where
  file : Option String
  start_line : Option Int
  end_line : Option Int
deriving DecidableEq

/-- Duplicate group dict built by Duplication.find_duplicates from raw
blocks. -/
structure RawGroup where
  size : Nat
  num_duplicates : Nat
  locations : List RawLocation
  cross_file : Bool
  tokens : List String
  similarity : ℚ
deriving DecidableEq

/-- Embedding of the first loop of Duplication.find_duplicates on raw block
dicts: block.get of the tokens key defaults to an empty list when the key is
absent, the builtin len raises TypeError on a non-sequence value, and blocks
below min_size are skipped; surviving blocks are paired with their token
key. -/
def rawKeyed (min_size : Nat) : List RawBlock → Except String (List (List String × RawBlock))
  | [] => .ok []
  | b :: rest =>
    match b.tokens with
    | .notSeq => .error "TypeError: object has no len"
    | .absent =>
      if 0 < min_size then rawKeyed min_size rest
      else do
        let r ← rawKeyed min_size rest
        .ok (([], b) :: r)
    | .seq ts =>
      if ts.length < min_size then rawKeyed min_size rest
      else do
        let r ← rawKeyed min_size rest
        .ok ((ts, b) :: r)

/-- Distinct keys of a keyed block list in first-insertion order, the key
order of the dict duplicates_by_tokens. -/
def rawKeysInOrder : List (List String × RawBlock) → List (List String)
  | [] => []
  | p :: rest => p.1 :: (rawKeysInOrder rest).filter (fun k => !decide (k = p.1))

/-- Embedding of the chained hard dict lookup of the location key and then
the file key, as in the file-set comprehension: it raises KeyError when the
location key or the file key is absent. -/
def rawFileOf (b : RawBlock) : Except String String :=
  match b.location with
  | .absent => .error "KeyError: location"
  | .present file _ _ =>
    match file with
    | none => .error "KeyError: file"
    | some f => .ok f

/-- File names of the members of one group, collected in member order as the
set comprehension evaluates them, propagating the first KeyError. -/
def rawFilesOf : List RawBlock → Except String (List String)
  | [] => .ok []
  | b :: bs => do
    let f ← rawFileOf b
    let fs ← rawFilesOf bs
    .ok (f :: fs)

/-- Defensive location dict of one member, built with loc.get so every absent
key becomes None. -/
def rawLocationOf (b : RawBlock) : RawLocation :=
  match b.location with
  | .absent => { file := none, start_line := none, end_line := none }
  | .present f s e => { file := f, start_line := s, end_line := e }

/-- Embedding of the second loop of Duplication.find_duplicates: for each key
in insertion order, skip groups with fewer than two members, otherwise compute
the member file set (raising KeyError on members without a proper location),
and build the group dict. -/
def rawGroups (keyed : List (List String × RawBlock)) :
    List (List String) → Except String (List RawGroup)
  | [] => .ok []
  | k :: ks =>
    let members := (keyed.filter (fun p => decide (p.1 = k))).map (fun p => p.2)
    if members.length < 2 then rawGroups keyed ks
    else do
      let files ← rawFilesOf members
      let rest ← rawGroups keyed ks
      .ok ({ size := k.length
             num_duplicates := members.length
             locations := members.map rawLocationOf
             cross_file := decide (1 < files.toFinset.card)
             tokens := k
             similarity := 1 } :: rest)

/-- Embedding of DuplicateDetector.find_duplicates from
replicheck/tools/Duplication/Duplication.py on raw block dicts, making the
exceptions the interpreter raises on malformed blocks explicit. -/
def find_duplicates (min_size : Nat) (code_blocks : List RawBlock) :
    Except String (List RawGroup) := do
  let keyed ← rawKeyed min_size code_blocks
  rawGroups keyed (rawKeysInOrder keyed)

end RawDuplication

/-! Theorems settling the claims, preceded by shared helper lemmas. -/

theorem calculate_similarity_comm (t1 t2 : List String) :
    calculate_similarity t1 t2 = calculate_similarity t2 t1 := by
  simp only [calculate_similarity, Finset.inter_comm t1.toFinset t2.toFinset,
    Finset.union_comm t1.toFinset t2.toFinset]

theorem calculate_similarity_nonneg (t1 t2 : List String) :
    0 ≤ calculate_similarity t1 t2 := by
  simp only [calculate_similarity]
  split
  · positivity
  · exact le_refl 0

theorem calculate_similarity_le_one (t1 t2 : List String) :
    calculate_similarity t1 t2 ≤ 1 := by
  simp only [calculate_similarity]
  split
  · rename_i hpos
    rw [div_le_one (by exact_mod_cast hpos)]
    exact_mod_cast Finset.card_le_card (Finset.inter_subset_union)
  · exact zero_le_one

theorem calculate_similarity_self (t : List String) (h : t ≠ []) :
    calculate_similarity t t = 1 := by
  simp only [calculate_similarity, Finset.inter_self, Finset.union_self]
  have hne : t.toFinset.Nonempty := by
    simpa [List.toFinset_nonempty_iff] using h
  have hpos : 0 < t.toFinset.card := Finset.card_pos.mpr hne
  rw [if_pos hpos, div_self (by exact_mod_cast Nat.pos_iff_ne_zero.mp hpos)]

/-- C6 (corrected): the claimed self-similarity fails at the empty token list,
where the union of the token sets is empty and calculate_similarity returns
its 0.0 fallback instead of 1.0. -/
theorem calculate_similarity_empty_self_ne_one :
    calculate_similarity [] [] ≠ 1 := by
  simp [calculate_similarity]

/-- C6 (amended): calculate_similarity always lies in [0, 1] and is symmetric;
the self-similarity of every nonempty token list is 1.0, while the
self-similarity of the empty token list is the 0.0 fallback. -/
theorem calculate_similarity_bounds_symm_self :
    (∀ t1 t2 : List String,
      0 ≤ calculate_similarity t1 t2 ∧ calculate_similarity t1 t2 ≤ 1) ∧
    (∀ t1 t2 : List String, calculate_similarity t1 t2 = calculate_similarity t2 t1) ∧
    (∀ t : List String, t ≠ [] → calculate_similarity t t = 1) ∧
    calculate_similarity [] [] = 0 := by
  refine ⟨fun t1 t2 => ⟨calculate_similarity_nonneg t1 t2, calculate_similarity_le_one t1 t2⟩,
    calculate_similarity_comm, calculate_similarity_self, ?_⟩
  simp [calculate_similarity]

/-- C6 witness: the amended statement applied at concrete inputs. -/
theorem calculate_similarity_bounds_symm_self_witness :
    calculate_similarity ["a", "b"] ["a", "b"] = 1 ∧
    (["a", "b"] : List String) ≠ [] := by
  refine ⟨calculate_similarity_bounds_symm_self.2.2.1 ["a", "b"] (by decide), by decide⟩

/-- C7 (confirmed): in Strategy A, a pair of blocks both of size at least
min_size whose relative size gap exceeds 1 - min_similarity is skipped by the
size-ratio short-circuit: the pair body emits no record, whatever the Jaccard
score of the token sets would be. -/
theorem comparePair_size_gap_skip (min_similarity : ℚ) (min_size : Nat)
    (b1 b2 : CodeBlock)
    (h1 : min_size ≤ b1.tokens.length) (h2 : min_size ≤ b2.tokens.length)
    (hgap : 1 - min_similarity <
      |(b1.tokens.length : ℚ) - (b2.tokens.length : ℚ)| /
        ((max b1.tokens.length b2.tokens.length : Nat) : ℚ)) :
    Detector.comparePair min_similarity min_size b1 b2 = none := by
  unfold Detector.comparePair
  dsimp only
  by_cases hA : b2.tokens.length < min_size
  · rw [if_pos hA]
  · rw [if_neg hA, if_pos hgap]

/-- C7 witness: with min_similarity = 4/5 the pair of a 1-token block and a
10-token block is skipped by the size-ratio test even though the two token
sets are equal, so their Jaccard score 1.0 would pass the threshold. -/
theorem comparePair_size_gap_skip_witness :
    (1 ≤ (["a"] : List String).length) ∧
    (1 ≤ (List.replicate 10 "a").length) ∧
    ((1 : ℚ) - 4/5 <
      |((["a"] : List String).length : ℚ) - ((List.replicate 10 "a").length : ℚ)| /
        ((max (["a"] : List String).length (List.replicate 10 "a").length : Nat) : ℚ)) ∧
    (4/5 : ℚ) ≤ calculate_similarity ["a"] (List.replicate 10 "a") ∧
    Detector.comparePair (4/5) 1
      { tokens := ["a"], location := { file := "f1", start_line := 1, end_line := 1 } }
      { tokens := List.replicate 10 "a",
        location := { file := "f2", start_line := 1, end_line := 10 } } = none := by
  refine ⟨by decide, by decide, by norm_num, ?_, ?_⟩
  · show (4/5 : ℚ) ≤ calculate_similarity ["a"] (List.replicate 10 "a")
    have : calculate_similarity ["a"] (List.replicate 10 "a") = 1 := by
      simp [calculate_similarity, List.replicate]
    rw [this]; norm_num
  · exact comparePair_size_gap_skip (4/5) 1 _ _ (by decide) (by decide) (by norm_num)

theorem sortBlocks_le_trans :
    ∀ a b c : CodeBlock,
      decide (a.tokens.length ≤ b.tokens.length) = true →
      decide (b.tokens.length ≤ c.tokens.length) = true →
      decide (a.tokens.length ≤ c.tokens.length) = true := by
  intro a b c hab hbc
  simp only [decide_eq_true_eq] at hab hbc ⊢
  omega

theorem sortBlocks_le_total :
    ∀ a b : CodeBlock,
      (decide (a.tokens.length ≤ b.tokens.length) ||
        decide (b.tokens.length ≤ a.tokens.length)) = true := by
  intro a b
  simp only [Bool.or_eq_true, decide_eq_true_eq]
  omega

theorem sortBlocks_idem (blocks : List CodeBlock) :
    Detector.sortBlocks (Detector.sortBlocks blocks) = Detector.sortBlocks blocks := by
  unfold Detector.sortBlocks
  exact List.mergeSort_of_sorted
    (List.sorted_mergeSort sortBlocks_le_trans sortBlocks_le_total blocks)

/-- C10 (corrected): Strategy A does not leave its input list in the same
order; detector.find_duplicates sorts the list in place, so on this two-block
input the caller-visible list afterwards differs from the original order. -/
theorem detector_mutates_input_order :
    (Detector.find_duplicates 1 1
      [{ tokens := ["a", "b"], location := { file := "f", start_line := 1, end_line := 2 } },
       { tokens := ["c"], location := { file := "f", start_line := 3, end_line := 3 } }]).2 ≠
    [{ tokens := ["a", "b"], location := { file := "f", start_line := 1, end_line := 2 } },
     { tokens := ["c"], location := { file := "f", start_line := 3, end_line := 3 } }] := by
  have hsort : Detector.sortBlocks
      [{ tokens := ["a", "b"], location := { file := "f", start_line := 1, end_line := 2 } },
       { tokens := ["c"], location := { file := "f", start_line := 3, end_line := 3 } }] =
      [{ tokens := ["c"], location := { file := "f", start_line := 3, end_line := 3 } },
       { tokens := ["a", "b"], location := { file := "f", start_line := 1, end_line := 2 } }] := by
    simp [Detector.sortBlocks, List.mergeSort]
  simp [Detector.find_duplicates, hsort]

/-- C10 (amended): matching is a deterministic function of its input, but
Strategy A mutates the input list in place: after a call the caller-visible
list is a permutation of the original, ascending by token count, and a second
call on the mutated list returns the very same result and mutates nothing
further. -/
theorem detector_deterministic_but_sorts :
    ∀ (min_similarity : ℚ) (min_size : Nat) (blocks : List CodeBlock),
      ((Detector.find_duplicates min_similarity min_size blocks).2.Perm blocks) ∧
      ((Detector.find_duplicates min_similarity min_size blocks).2.Pairwise
        (fun a b => a.tokens.length ≤ b.tokens.length)) ∧
      (Detector.find_duplicates min_similarity min_size
          ((Detector.find_duplicates min_similarity min_size blocks).2) =
        Detector.find_duplicates min_similarity min_size blocks) := by
  intro min_similarity min_size blocks
  refine ⟨List.mergeSort_perm blocks _, ?_, ?_⟩
  · have h := List.sorted_mergeSort sortBlocks_le_trans sortBlocks_le_total blocks
    exact h.imp (fun hab => by simpa [decide_eq_true_eq] using hab)
  · simp only [Detector.find_duplicates, sortBlocks_idem]

theorem comparePair_eq_some {min_similarity : ℚ} {min_size : Nat}
    {b1 b2 : CodeBlock} {p : Detector.PairMatch}
    (h : Detector.comparePair min_similarity min_size b1 b2 = some p) :
    min_size ≤ b2.tokens.length ∧
    p.similarity = calculate_similarity b1.tokens b2.tokens ∧
    min_similarity ≤ p.similarity ∧
    p.block1 = b1.location ∧ p.block2 = b2.location ∧ p.size = b1.tokens.length := by
  unfold Detector.comparePair at h
  dsimp only at h
  split_ifs at h with h1 h2 h3
  · cases h
    exact ⟨by omega, rfl, h3, rfl, rfl, rfl⟩

theorem pairLoop_mem {min_similarity : ℚ} {min_size : Nat} {p : Detector.PairMatch} :
    ∀ {l : List CodeBlock}, p ∈ Detector.pairLoop min_similarity min_size l →
      ∃ b1 b2, b1 ∈ l ∧ b2 ∈ l ∧ min_size ≤ b1.tokens.length ∧
        Detector.comparePair min_similarity min_size b1 b2 = some p ∧
        (l.Pairwise (fun a b => a.tokens.length ≤ b.tokens.length) →
          b1.tokens.length ≤ b2.tokens.length) := by
  intro l
  induction l with
  | nil => intro hp; simp [Detector.pairLoop] at hp
  | cons b rest ih =>
    intro hp
    rw [Detector.pairLoop, List.mem_append] at hp
    rcases hp with hp | hp
    · by_cases hb : b.tokens.length < min_size
      · rw [if_pos hb] at hp
        simp at hp
      · rw [if_neg hb] at hp
        rcases List.mem_filterMap.mp hp with ⟨b2, hb2, hcmp⟩
        exact ⟨b, b2, List.mem_cons_self b rest, List.mem_cons_of_mem b hb2,
          by omega, hcmp,
          fun hpw => (List.pairwise_cons.mp hpw).1 b2 hb2⟩
    · rcases ih hp with ⟨b1, b2, hb1, hb2, hsz, hcmp, hord⟩
      exact ⟨b1, b2, List.mem_cons_of_mem b hb1, List.mem_cons_of_mem b hb2, hsz, hcmp,
        fun hpw => hord (List.pairwise_cons.mp hpw).2⟩

theorem detector_pair_mem {min_similarity : ℚ} {min_size : Nat}
    {blocks : List CodeBlock} {p : Detector.PairMatch}
    (hp : p ∈ (Detector.find_duplicates min_similarity min_size blocks).1) :
    ∃ b1 b2, b1 ∈ blocks ∧ b2 ∈ blocks ∧
      min_size ≤ b1.tokens.length ∧ min_size ≤ b2.tokens.length ∧
      b1.tokens.length ≤ b2.tokens.length ∧
      p.similarity = calculate_similarity b1.tokens b2.tokens ∧
      min_similarity ≤ p.similarity ∧
      p.block1 = b1.location ∧ p.block2 = b2.location ∧ p.size = b1.tokens.length := by
  rcases pairLoop_mem hp with ⟨b1, b2, hb1, hb2, hsz, hcmp, hord⟩
  rcases comparePair_eq_some hcmp with ⟨hsz2, hsim, hth, hl1, hl2, hs⟩
  have hperm := List.mergeSort_perm blocks
    (fun a b => decide (a.tokens.length ≤ b.tokens.length))
  have hsorted : (Detector.sortBlocks blocks).Pairwise
      (fun a b => a.tokens.length ≤ b.tokens.length) :=
    (List.sorted_mergeSort sortBlocks_le_trans sortBlocks_le_total blocks).imp
      (fun hab => by simpa [decide_eq_true_eq] using hab)
  exact ⟨b1, b2, hperm.mem_iff.mp hb1, hperm.mem_iff.mp hb2, hsz, hsz2,
    hord hsorted, hsim, hth, hl1, hl2, hs⟩

theorem groupsWithMembers_mem {ms : Nat} {blocks : List CodeBlock}
    {km : List String × List CodeBlock}
    (h : km ∈ Duplication.groupsWithMembers ms blocks) :
    km.2 = (Duplication.filteredBlocks ms blocks).filter
      (fun b => decide (b.tokens = km.1)) := by
  rcases List.mem_map.mp h with ⟨k, _, heq⟩
  rw [← heq]

/-- C2 (confirmed): min_size is an inclusive lower bound in both strategies.
A block with fewer than min_size tokens survives neither the Strategy B
filter nor membership in any grouped member list, and every pair Strategy A
emits joins two blocks of at least min_size tokens; a block with exactly
min_size tokens passes the filter. -/
theorem min_size_inclusive_filter :
    (∀ (ms : Nat) (blocks : List CodeBlock) (b : CodeBlock),
      b.tokens.length < ms →
      b ∉ Duplication.filteredBlocks ms blocks ∧
      ∀ km ∈ Duplication.groupsWithMembers ms blocks, b ∉ km.2) ∧
    (∀ (ms : Nat) (blocks : List CodeBlock) (b : CodeBlock),
      b ∈ blocks → ms ≤ b.tokens.length →
      b ∈ Duplication.filteredBlocks ms blocks) ∧
    (∀ (min_similarity : ℚ) (ms : Nat) (blocks : List CodeBlock)
      (p : Detector.PairMatch),
      p ∈ (Detector.find_duplicates min_similarity ms blocks).1 →
      ∃ b1 b2, b1 ∈ blocks ∧ b2 ∈ blocks ∧
        ms ≤ b1.tokens.length ∧ ms ≤ b2.tokens.length ∧
        p.block1 = b1.location ∧ p.block2 = b2.location) := by
  refine ⟨?_, ?_, ?_⟩
  · intro ms blocks b hlt
    have hnot : b ∉ Duplication.filteredBlocks ms blocks := by
      intro hmem
      have := (List.mem_filter.mp hmem).2
      simp only [decide_eq_true_eq] at this
      omega
    refine ⟨hnot, ?_⟩
    intro km hkm hmem
    rw [groupsWithMembers_mem hkm] at hmem
    exact hnot (List.mem_filter.mp hmem).1
  · intro ms blocks b hb hle
    exact List.mem_filter.mpr ⟨hb, by simpa using hle⟩
  · intro min_similarity ms blocks p hp
    rcases detector_pair_mem hp with ⟨b1, b2, hb1, hb2, h1, h2, _, _, _, hl1, hl2, _⟩
    exact ⟨b1, b2, hb1, hb2, h1, h2, hl1, hl2⟩

/-- C2 witness: the filter rejects a 1-token block at min_size = 2 and keeps a
block of exactly 2 tokens. -/
theorem min_size_inclusive_filter_witness :
    ({ tokens := ["x"], location := { file := "f", start_line := 1, end_line := 1 } }
        : CodeBlock) ∉
      Duplication.filteredBlocks 2
        [{ tokens := ["x"], location := { file := "f", start_line := 1, end_line := 1 } }] ∧
    ({ tokens := ["x", "y"], location := { file := "f", start_line := 1, end_line := 2 } }
        : CodeBlock) ∈
      Duplication.filteredBlocks 2
        [{ tokens := ["x", "y"], location := { file := "f", start_line := 1, end_line := 2 } }] := by
  constructor
  · exact (min_size_inclusive_filter.1 2 _ _ (by decide)).1
  · exact min_size_inclusive_filter.2.1 2 _ _ (by simp) (by decide)

/-- C3 (confirmed): invariants of the emitted records. Every Strategy B group
arises from at least two member blocks sharing its token sequence, with
num_duplicates equal to the location count, size equal to the shared token
count, cross_file true exactly when the locations span more than one file, and
similarity 1.0; every Strategy A pair record carries the location of two
blocks, its size is the token count of the first block in the
sorted-ascending order, and its similarity is the computed Jaccard score. -/
theorem duplicate_group_invariants :
    (∀ (ms : Nat) (blocks : List CodeBlock) (g : Duplication.DuplicateGroup),
      g ∈ Duplication.find_duplicates ms blocks →
      ∃ members : List CodeBlock,
        2 ≤ members.length ∧
        g.num_duplicates = members.length ∧
        g.locations = members.map (fun b => b.location) ∧
        g.num_duplicates = g.locations.length ∧
        2 ≤ g.num_duplicates ∧
        (∀ b ∈ members,
          b ∈ Duplication.filteredBlocks ms blocks ∧ b.tokens = g.tokens) ∧
        g.size = g.tokens.length ∧
        (g.cross_file = true ↔
          1 < ((g.locations.map (fun l => l.file)).toFinset.card)) ∧
        g.similarity = 1) ∧
    (∀ (min_similarity : ℚ) (ms : Nat) (blocks : List CodeBlock)
      (p : Detector.PairMatch),
      p ∈ (Detector.find_duplicates min_similarity ms blocks).1 →
      ∃ b1 b2, b1 ∈ blocks ∧ b2 ∈ blocks ∧
        b1.tokens.length ≤ b2.tokens.length ∧
        p.size = b1.tokens.length ∧
        p.similarity = calculate_similarity b1.tokens b2.tokens ∧
        min_similarity ≤ p.similarity ∧
        p.block1 = b1.location ∧ p.block2 = b2.location) := by
  constructor
  · intro ms blocks g hg
    rcases List.mem_filterMap.mp hg with ⟨km, hkm, hsome⟩
    by_cases hlen : km.2.length < 2
    · rw [if_pos hlen] at hsome; cases hsome
    · rw [if_neg hlen] at hsome
      have hg' : g = Duplication.mkGroup km.1 km.2 := by
        cases hsome; rfl
      have hmembers := groupsWithMembers_mem hkm
      refine ⟨km.2, by omega, ?_, ?_, ?_, ?_, ?_, ?_, ?_, ?_⟩
      · rw [hg']; rfl
      · rw [hg']; rfl
      · rw [hg']; simp [Duplication.mkGroup]
      · rw [hg']; simpa [Duplication.mkGroup] using (by omega : 2 ≤ km.2.length)
      · intro b hb
        rw [hmembers] at hb
        have h1 := (List.mem_filter.mp hb).1
        have h2 := (List.mem_filter.mp hb).2
        simp only [decide_eq_true_eq] at h2
        exact ⟨h1, by rw [hg']; exact h2⟩
      · rw [hg']; rfl
      · rw [hg']
        simp only [Duplication.mkGroup, Duplication.crossFile, List.map_map,
          decide_eq_true_eq]
        rfl
      · rw [hg']; rfl
  · intro min_similarity ms blocks p hp
    rcases detector_pair_mem hp with ⟨b1, b2, hb1, hb2, _, _, hord, hsim, hth, hl1, hl2, hs⟩
    exact ⟨b1, b2, hb1, hb2, hord, hs, hsim, hth, hl1, hl2⟩

/-- C3 witness: the invariants instantiated on a concrete two-block duplicate
input for Strategy B. -/
theorem duplicate_group_invariants_witness :
    ∀ g ∈ Duplication.find_duplicates 1
      [{ tokens := ["a"], location := { file := "f1", start_line := 1, end_line := 1 } },
       { tokens := ["a"], location := { file := "f2", start_line := 1, end_line := 1 } }],
      g.similarity = 1 ∧ 2 ≤ g.num_duplicates := by
  intro g hg
  rcases duplicate_group_invariants.1 1 _ g hg with
    ⟨members, _, _, _, _, hnum, _, _, _, hsim⟩
  exact ⟨hsim, hnum⟩

theorem keysInOrder_nodup (l : List CodeBlock) : (Duplication.keysInOrder l).Nodup := by
  induction l with
  | nil => simp [Duplication.keysInOrder]
  | cons b rest ih =>
    rw [Duplication.keysInOrder, List.nodup_cons]
    refine ⟨?_, ih.filter _⟩
    intro hmem
    have := (List.mem_filter.mp hmem).2
    simp at this

theorem mem_keysInOrder {l : List CodeBlock} {k : List String} :
    k ∈ Duplication.keysInOrder l ↔ ∃ b ∈ l, b.tokens = k := by
  induction l with
  | nil => simp [Duplication.keysInOrder]
  | cons b rest ih =>
    rw [Duplication.keysInOrder]
    by_cases hk : k = b.tokens
    · subst hk
      simp [List.mem_cons]
    · simp only [List.mem_cons, List.mem_filter]
      constructor
      · rintro (h | ⟨hmem, _⟩)
        · exact absurd h hk
        · rcases ih.mp hmem with ⟨b2, hb2, ht⟩
          exact ⟨b2, Or.inr hb2, ht⟩
      · rintro ⟨b2, hb2, ht⟩
        rcases hb2 with hb2 | hb2
        · exact absurd (hb2 ▸ ht.symm) hk
        · exact Or.inr ⟨ih.mpr ⟨b2, hb2, ht⟩, by simpa using hk⟩

theorem filterMap_eq_of_unique {α β : Type} {l : List α} {f : α → Option β}
    {a : α} {g : β} (hnd : l.Nodup) (ha : a ∈ l) (hfa : f a = some g)
    (hother : ∀ x ∈ l, x ≠ a → f x = none) :
    l.filterMap f = [g] := by
  induction l with
  | nil => cases ha
  | cons x xs ih =>
    rcases List.mem_cons.mp ha with hax | hax
    · subst hax
      rw [List.filterMap_cons, hfa]
      have hnone : ∀ y ∈ xs, f y = none := by
        intro y hy
        refine hother y (List.mem_cons_of_mem a hy) ?_
        intro hcontra
        exact (List.nodup_cons.mp hnd).1 (hcontra ▸ hy)
      have : xs.filterMap f = [] := by
        rw [List.filterMap_eq_nil]
        intro y hy
        simp [hnone y hy]
      rw [this]
    · have hxa : x ≠ a := by
        intro h
        exact (List.nodup_cons.mp hnd).1 (h ▸ hax)
      rw [List.filterMap_cons, hother x (List.mem_cons_self x xs) hxa]
      exact ih (List.nodup_cons.mp hnd).2 hax
        (fun y hy => hother y (List.mem_cons_of_mem x hy))

/-- C1 (confirmed): when the surviving blocks contain exactly two with the
same token sequence (captured by the hypothesis that the filter at that key
yields exactly those two and every other key occurs at most once), located in
two distinct files, Strategy B returns exactly one DuplicateGroup, with
similarity 1.0, num_duplicates 2, the two locations, and cross_file true. -/
theorem strategyB_exact_pair (ms : Nat) (blocks : List CodeBlock) (b1 b2 : CodeBlock)
    (hpair : (Duplication.filteredBlocks ms blocks).filter
        (fun b => decide (b.tokens = b1.tokens)) = [b1, b2])
    (hother : ∀ b ∈ Duplication.filteredBlocks ms blocks, b.tokens ≠ b1.tokens →
      ((Duplication.filteredBlocks ms blocks).filter
          (fun c => decide (c.tokens = b.tokens))).length < 2)
    (hfile : b1.location.file ≠ b2.location.file) :
    Duplication.find_duplicates ms blocks =
      [{ size := b1.tokens.length, num_duplicates := 2,
         locations := [b1.location, b2.location], cross_file := true,
         tokens := b1.tokens, similarity := 1 }] := by
  have hb1fl : b1 ∈ Duplication.filteredBlocks ms blocks := by
    have : b1 ∈ (Duplication.filteredBlocks ms blocks).filter
        (fun b => decide (b.tokens = b1.tokens)) := by
      rw [hpair]; exact List.mem_cons_self b1 [b2]
    exact (List.mem_filter.mp this).1
  have hb2tok : b2.tokens = b1.tokens := by
    have : b2 ∈ (Duplication.filteredBlocks ms blocks).filter
        (fun b => decide (b.tokens = b1.tokens)) := by
      rw [hpair]; simp
    simpa using (List.mem_filter.mp this).2
  rw [Duplication.find_duplicates, Duplication.groupsWithMembers]
  rw [List.filterMap_map]
  apply filterMap_eq_of_unique (keysInOrder_nodup _)
    (mem_keysInOrder.mpr ⟨b1, hb1fl, rfl⟩)
  · simp only [Function.comp_apply]
    rw [hpair]
    have h2 : ¬ ([b1, b2].length < 2) := by simp
    rw [if_neg h2]
    simp only [Duplication.mkGroup, Duplication.crossFile]
    congr 1
    have hcard : (1 : ℕ) < ({b1.location.file, b2.location.file} : Finset String).card := by
      rw [Finset.card_insert_of_not_mem (by simpa using hfile), Finset.card_singleton]
      omega
    simp [hcard]
  · intro k hk hne
    rcases mem_keysInOrder.mp hk with ⟨b, hb, htok⟩
    have hne2 : b.tokens ≠ b1.tokens := by rw [htok]; exact hne
    have hlt := hother b hb hne2
    rw [htok] at hlt
    simp only [Function.comp_apply]
    rw [if_pos hlt]

/-- C1 witness: the exact-pair property applied to a concrete three-block
input whose only surviving duplicate pair lives in two distinct files. -/
theorem strategyB_exact_pair_witness :
    Duplication.find_duplicates 2
      [{ tokens := ["a", "b"], location := { file := "f1.py", start_line := 1, end_line := 2 } },
       { tokens := ["z"], location := { file := "f1.py", start_line := 9, end_line := 9 } },
       { tokens := ["a", "b"], location := { file := "f2.py", start_line := 5, end_line := 6 } }] =
      [{ size := 2, num_duplicates := 2,
         locations := [{ file := "f1.py", start_line := 1, end_line := 2 },
                       { file := "f2.py", start_line := 5, end_line := 6 }],
         cross_file := true, tokens := ["a", "b"], similarity := 1 }] :=
  strategyB_exact_pair 2 _
    { tokens := ["a", "b"], location := { file := "f1.py", start_line := 1, end_line := 2 } }
    { tokens := ["a", "b"], location := { file := "f2.py", start_line := 5, end_line := 6 } }
    (by decide) (by decide) (by decide)

/-- C4 (corrected): an unreadable file does not yield an empty block list;
the uncaught open error propagates out of CodeParser.parse_file. -/
theorem parse_file_unreadable_raises :
    Parser.parse_file "a.py" ".py" (.unreadable "FileNotFoundError") =
      .error "FileNotFoundError" ∧
    Parser.parse_file "a.py" ".py" (.unreadable "FileNotFoundError") ≠ .ok [] := by
  constructor
  · rfl
  · intro h
    cases h

/-- C4 (amended): parse_file returns an empty list without raising for
unsupported extensions, for Python files whose parse raises SyntaxError, and
for tree-sitter files whose parsing machinery raises internally; but for a
supported extension whose file cannot be opened or decoded, the error
propagates to the caller. -/
theorem parse_file_error_containment :
    (∀ (fp suffix : String) (f : Parser.FileAccess),
      suffix ∉ Parser.supported_extensions →
      Parser.parse_file fp suffix f = .ok []) ∧
    (∀ (fp suffix err : String),
      suffix ∈ Parser.supported_extensions →
      Parser.parse_file fp suffix (.unreadable err) = .error err) ∧
    (∀ (fp : String) (ts : Option (List (Parser.TSNode × String) × List Char)),
      Parser.parse_file fp ".py" (.readable none ts) = .ok []) ∧
    (∀ (fp suffix : String) (py : Option Parser.PyAst),
      suffix ∈ Parser.supported_extensions → suffix ≠ ".py" →
      Parser.parse_file fp suffix (.readable py none) = .ok []) := by
  refine ⟨?_, ?_, ?_, ?_⟩
  · intro fp suffix f hns
    rw [Parser.parse_file.eq_def, if_neg hns]
  · intro fp suffix err hs
    rw [Parser.parse_file.eq_def, if_pos hs]
  · intro fp ts
    rfl
  · intro fp suffix py hs hne
    rw [Parser.parse_file.eq_def, if_pos hs]
    dsimp only
    rw [if_neg hne]
    rfl

/-- C4 witness: the containment cases applied at concrete inputs. -/
theorem parse_file_error_containment_witness :
    Parser.parse_file "a.txt" ".txt" (.unreadable "PermissionError") = .ok [] ∧
    Parser.parse_file "a.js" ".js" (.unreadable "UnicodeDecodeError") =
      .error "UnicodeDecodeError" ∧
    Parser.parse_file "a.py" ".py" (.readable none none) = .ok [] ∧
    Parser.parse_file "a.js" ".js" (.readable none none) = .ok [] :=
  ⟨parse_file_error_containment.1 "a.txt" ".txt" _ (by decide),
   parse_file_error_containment.2.1 "a.js" ".js" "UnicodeDecodeError" (by decide),
   parse_file_error_containment.2.2.1 "a.py" none,
   parse_file_error_containment.2.2.2 "a.js" ".js" none (by decide) (by decide)⟩

theorem rawKeyed_skip_absent (ms : Nat) (hms : 1 ≤ ms) (b : RawDuplication.RawBlock)
    (hb : b.tokens = .absent) :
    ∀ (l1 l2 : List RawDuplication.RawBlock),
      RawDuplication.rawKeyed ms (l1 ++ b :: l2) =
        RawDuplication.rawKeyed ms (l1 ++ l2) := by
  intro l1 l2
  induction l1 with
  | nil =>
    simp only [List.nil_append]
    rw [RawDuplication.rawKeyed, hb]
    rw [if_pos (by omega)]
  | cons x l1 ih =>
    simp only [List.cons_append]
    rw [RawDuplication.rawKeyed, RawDuplication.rawKeyed]
    cases hx : x.tokens with
    | notSeq => rfl
    | absent =>
      dsimp only
      split_ifs with h0
      · exact ih
      · rw [ih]
    | seq ts =>
      dsimp only
      split_ifs with h0
      · exact ih
      · rw [ih]

theorem rawKeyed_error (ms : Nat) :
    ∀ (l : List RawDuplication.RawBlock), (∃ b ∈ l, b.tokens = .notSeq) →
      ∃ e, RawDuplication.rawKeyed ms l = .error e := by
  intro l
  induction l with
  | nil => rintro ⟨b, hb, _⟩; cases hb
  | cons x rest ih =>
    rintro ⟨b, hb, hbt⟩
    rcases List.mem_cons.mp hb with hb | hb
    · subst hb
      rw [RawDuplication.rawKeyed, hbt]
      exact ⟨"TypeError: object has no len", rfl⟩
    · rcases ih ⟨b, hb, hbt⟩ with ⟨e, he⟩
      rw [RawDuplication.rawKeyed]
      cases hx : x.tokens with
      | notSeq => exact ⟨"TypeError: object has no len", rfl⟩
      | absent =>
        dsimp only
        split_ifs with h0
        · exact ⟨e, he⟩
        · exact ⟨e, by rw [he]; rfl⟩
      | seq ts =>
        dsimp only
        split_ifs with h0
        · exact ⟨e, he⟩
        · exact ⟨e, by rw [he]; rfl⟩

/-- C5 (corrected): a block whose tokens entry is not a sequence crashes the
exact-hash matcher with a TypeError from the len call, instead of being
treated as unmatched. -/
theorem raw_matcher_notseq_raises :
    RawDuplication.find_duplicates 1
      [{ tokens := .notSeq, location := .present (some "a.py") (some 1) (some 2) }] =
      .error "TypeError: object has no len" := by
  rfl

theorem raw_pair_file_lookup_error (ms : Nat) (ts : List String)
    (b1 b2 : RawDuplication.RawBlock) (e : String)
    (hms : ms ≤ ts.length) (h1 : b1.tokens = .seq ts) (h2 : b2.tokens = .seq ts)
    (hf : RawDuplication.rawFileOf b1 = .error e) :
    RawDuplication.find_duplicates ms [b1, b2] = .error e := by
  have hk2 : RawDuplication.rawKeyed ms [b2] = .ok [(ts, b2)] := by
    rw [RawDuplication.rawKeyed, h2]
    dsimp only
    rw [if_neg (by omega)]
    rfl
  have hk : RawDuplication.rawKeyed ms [b1, b2] = .ok [(ts, b1), (ts, b2)] := by
    rw [RawDuplication.rawKeyed, h1]
    dsimp only
    rw [if_neg (by omega), hk2]
    rfl
  have hkeys : RawDuplication.rawKeysInOrder [(ts, b1), (ts, b2)] = [ts] := by
    rw [RawDuplication.rawKeysInOrder, RawDuplication.rawKeysInOrder,
      RawDuplication.rawKeysInOrder]
    simp
  have hmem : (([(ts, b1), (ts, b2)] : List (List String × RawDuplication.RawBlock)).filter
      (fun p => decide (p.1 = ts))).map (fun p => p.2) = [b1, b2] := by
    simp
  rw [RawDuplication.find_duplicates, hk]
  show RawDuplication.rawGroups [(ts, b1), (ts, b2)]
    (RawDuplication.rawKeysInOrder [(ts, b1), (ts, b2)]) = .error e
  rw [hkeys, RawDuplication.rawGroups]
  rw [hmem]
  rw [if_neg (by simp)]
  rw [RawDuplication.rawFilesOf, hf]
  rfl

/-- C5 (amended): in Strategy B a block whose tokens key is absent is read
back as an empty token list by block.get, so with a positive min_size it is
skipped and the remaining blocks are matched exactly as if it were not there;
but a block whose tokens entry is not a sequence makes the matcher raise
TypeError, and a matched pair whose member fails the chained location/file
lookup (location key absent, or file key absent) makes the matcher raise that
KeyError instead of treating the member as unmatched. -/
theorem raw_matcher_malformed :
    (∀ (ms : Nat) (l1 l2 : List RawDuplication.RawBlock) (b : RawDuplication.RawBlock),
      1 ≤ ms → b.tokens = .absent →
      RawDuplication.find_duplicates ms (l1 ++ b :: l2) =
        RawDuplication.find_duplicates ms (l1 ++ l2)) ∧
    (∀ (ms : Nat) (l : List RawDuplication.RawBlock),
      (∃ b ∈ l, b.tokens = .notSeq) →
      ∃ e, RawDuplication.find_duplicates ms l = .error e) ∧
    (∀ (ms : Nat) (ts : List String) (b1 b2 : RawDuplication.RawBlock) (e : String),
      ms ≤ ts.length → b1.tokens = .seq ts → b2.tokens = .seq ts →
      RawDuplication.rawFileOf b1 = .error e →
      RawDuplication.find_duplicates ms [b1, b2] = .error e) := by
  refine ⟨?_, ?_, ?_⟩
  · intro ms l1 l2 b hms hb
    rw [RawDuplication.find_duplicates, RawDuplication.find_duplicates,
      rawKeyed_skip_absent ms hms b hb l1 l2]
  · intro ms l hex
    rcases rawKeyed_error ms l hex with ⟨e, he⟩
    exact ⟨e, by rw [RawDuplication.find_duplicates, he]; rfl⟩
  · exact raw_pair_file_lookup_error

/-- C5 witness: the amended behavior applied at concrete inputs: an
absent-tokens block among two well-formed duplicates changes nothing, a
non-sequence tokens entry raises TypeError, and a matched pair with a
member missing its location key (or its file key) raises KeyError. -/
theorem raw_matcher_malformed_witness :
    (RawDuplication.find_duplicates 1
      [{ tokens := .absent, location := .present (some "x.py") (some 1) (some 1) },
       { tokens := .seq ["a"], location := .present (some "f1.py") (some 1) (some 1) },
       { tokens := .seq ["a"], location := .present (some "f2.py") (some 2) (some 2) }] =
      RawDuplication.find_duplicates 1
        [{ tokens := .seq ["a"], location := .present (some "f1.py") (some 1) (some 1) },
         { tokens := .seq ["a"], location := .present (some "f2.py") (some 2) (some 2) }]) ∧
    (∃ e, RawDuplication.find_duplicates 2
      [{ tokens := .notSeq, location := .absent }] = .error e) ∧
    (RawDuplication.find_duplicates 1
      [{ tokens := .seq ["a"], location := .absent },
       { tokens := .seq ["a"], location := .present (some "f2.py") (some 2) (some 2) }] =
      .error "KeyError: location") ∧
    (RawDuplication.find_duplicates 1
      [{ tokens := .seq ["a"], location := .present none (some 1) (some 1) },
       { tokens := .seq ["a"], location := .present (some "f2.py") (some 2) (some 2) }] =
      .error "KeyError: file") :=
  ⟨raw_matcher_malformed.1 1 []
      [{ tokens := .seq ["a"], location := .present (some "f1.py") (some 1) (some 1) },
       { tokens := .seq ["a"], location := .present (some "f2.py") (some 2) (some 2) }]
      { tokens := .absent, location := .present (some "x.py") (some 1) (some 1) }
      (by decide) rfl,
   raw_matcher_malformed.2.1 2 _ ⟨_, List.mem_cons_self _ _, rfl⟩,
   raw_matcher_malformed.2.2 1 ["a"]
      { tokens := .seq ["a"], location := .absent }
      { tokens := .seq ["a"], location := .present (some "f2.py") (some 2) (some 2) }
      "KeyError: location" (by decide) rfl rfl rfl,
   raw_matcher_malformed.2.2 1 ["a"]
      { tokens := .seq ["a"], location := .present none (some 1) (some 1) }
      { tokens := .seq ["a"], location := .present (some "f2.py") (some 2) (some 2) }
      "KeyError: file" (by decide) rfl rfl rfl⟩

mutual

theorem tokenize_node_sound (content : List Char) :
    ∀ (n : Parser.TSNode) (tok : String),
      tok ∈ Parser.tokenize_tree_sitter_node content n →
      ∃ m, m ∈ Parser.TSNode.subnodes n ∧
        (Parser.TSNode.nodeType m ∈ Parser.identifierTypes ∨
          Parser.TSNode.nodeType m ∈ Parser.literalTypes) ∧
        tok = String.mk
          (Parser.sliceText content (Parser.TSNode.startByte m) (Parser.TSNode.endByte m))
  | .mk ty s e rs re cs, tok, htok => by
    rw [Parser.tokenize_tree_sitter_node] at htok
    rcases List.mem_append.mp htok with h | h
    · refine ⟨.mk ty s e rs re cs,
        by rw [Parser.TSNode.subnodes]; exact List.mem_cons_self _ _, ?_⟩
      split_ifs at h with hid hstrip hlit hstrip2
      · rcases List.mem_singleton.mp h with rfl
        exact ⟨Or.inl hid, rfl⟩
      · cases h
      · rcases List.mem_singleton.mp h with rfl
        exact ⟨Or.inr hlit, rfl⟩
      · cases h
      · cases h
    · rcases tokenize_forest_sound content cs tok h with ⟨m, hm, hc, he⟩
      exact ⟨m, by rw [Parser.TSNode.subnodes]; exact List.mem_cons_of_mem _ hm, hc, he⟩

theorem tokenize_forest_sound (content : List Char) :
    ∀ (l : List Parser.TSNode) (tok : String),
      tok ∈ Parser.tokenizeForest content l →
      ∃ m, m ∈ Parser.subnodesForest l ∧
        (Parser.TSNode.nodeType m ∈ Parser.identifierTypes ∨
          Parser.TSNode.nodeType m ∈ Parser.literalTypes) ∧
        tok = String.mk
          (Parser.sliceText content (Parser.TSNode.startByte m) (Parser.TSNode.endByte m))
  | [], tok, h => by rw [Parser.tokenizeForest] at h; cases h
  | n :: rest, tok, h => by
    rw [Parser.tokenizeForest] at h
    rcases List.mem_append.mp h with h | h
    · rcases tokenize_node_sound content n tok h with ⟨m, hm, hc, he⟩
      exact ⟨m, by rw [Parser.subnodesForest]; exact List.mem_append_left _ hm, hc, he⟩
    · rcases tokenize_forest_sound content rest tok h with ⟨m, hm, hc, he⟩
      exact ⟨m, by rw [Parser.subnodesForest]; exact List.mem_append_right _ hm, hc, he⟩

end

/-- C8 (corrected): on the native Python path literal tokens are rendered by
str of the constant value, not by the literal source text, so the integer
literal 1 and the string literal with text 1 produce the same token. -/
theorem python_literal_tokens_collapse :
    Parser.tokenize_python (.Constant (.int 1)) =
      Parser.tokenize_python (.Constant (.str "1")) ∧
    Parser.tokenize_python (.Constant (.int 1)) = ["1"] := by
  constructor <;>
    simp [Parser.tokenize_python, Parser.walkBFS, Parser.PyAst.children,
      Parser.tokenOf, Parser.pyStr] <;> rfl

/-- C8 (amended): on the Grammar-Provider path every emitted token is the
literal source text of a subtree node classified as identifier-like or
literal-like; on the native path a literal token is str of the constant value,
which identifies distinct source literals with equal str rendering. -/
theorem literal_token_rendering :
    (∀ (content : List Char) (n : Parser.TSNode) (tok : String),
      tok ∈ Parser.tokenize_tree_sitter_node content n →
      ∃ m, m ∈ Parser.TSNode.subnodes n ∧
        (Parser.TSNode.nodeType m ∈ Parser.identifierTypes ∨
          Parser.TSNode.nodeType m ∈ Parser.literalTypes) ∧
        tok = String.mk
          (Parser.sliceText content (Parser.TSNode.startByte m) (Parser.TSNode.endByte m))) ∧
    (∀ v : Parser.PyConst, Parser.tokenize_python (.Constant v) = [Parser.pyStr v]) := by
  constructor
  · exact tokenize_node_sound
  · intro v
    simp [Parser.tokenize_python, Parser.walkBFS, Parser.PyAst.children, Parser.tokenOf]

/-- C8 witness: the soundness statement applied to a concrete identifier node
over the two-character content ab. -/
theorem literal_token_rendering_witness :
    ∃ m, m ∈ Parser.TSNode.subnodes (.mk "identifier" 0 1 0 0 []) ∧
      (Parser.TSNode.nodeType m ∈ Parser.identifierTypes ∨
        Parser.TSNode.nodeType m ∈ Parser.literalTypes) ∧
      "a" = String.mk
        (Parser.sliceText ['a', 'b'] (Parser.TSNode.startByte m) (Parser.TSNode.endByte m)) :=
  literal_token_rendering.1 ['a', 'b'] (.mk "identifier" 0 1 0 0 []) "a"
    (by simp [Parser.tokenize_tree_sitter_node, Parser.tokenizeForest,
      Parser.sliceText, Parser.stripNonempty, Parser.identifierTypes])

/-- C9 (corrected): the native path collects subtree tokens in the
breadth-first order of ast.walk, not in depth-first document order: on this
function body the code yields the sibling token before the nested ones while
the depth-first document order lists the nested subtree first. -/
theorem python_walk_is_bfs_not_dfs :
    Parser.tokenize_python (Parser.PyAst.FunctionDef "f" 1 3
      [Parser.PyAst.Other [Parser.PyAst.Name "a",
        Parser.PyAst.Other [Parser.PyAst.Name "deep"]],
       Parser.PyAst.Name "b"]) = ["b", "a", "deep"] ∧
    Parser.specTokensDFS (Parser.PyAst.FunctionDef "f" 1 3
      [Parser.PyAst.Other [Parser.PyAst.Name "a",
        Parser.PyAst.Other [Parser.PyAst.Name "deep"]],
       Parser.PyAst.Name "b"]) = ["a", "deep", "b"] ∧
    (["b", "a", "deep"] : List String) ≠ ["a", "deep", "b"] := by
  refine ⟨?_, ?_, by decide⟩
  · simp [Parser.tokenize_python, Parser.walkBFS, Parser.PyAst.children, Parser.tokenOf]
  · simp [Parser.specTokensDFS, Parser.specTokensDFSList]

/-- C9 (amended): every block the native path emits comes from a FunctionDef
or ClassDef node of the walked tree; its first token is the declared name and
the remaining tokens are the Name identifiers and str-rendered Constant
literals of the subtree in the breadth-first order of ast.walk. -/
theorem parse_python_block_shape :
    ∀ (fp : String) (tree : Parser.PyAst) (block : CodeBlock),
      block ∈ Parser.parse_python fp tree →
      ∃ node name, node ∈ Parser.walkBFS [tree] ∧
        Parser.defNameOf node = some name ∧
        block.tokens = name :: Parser.tokenize_python node ∧
        block.tokens.head? = some name ∧
        block.location.file = fp := by
  intro fp tree block hb
  rcases List.mem_filterMap.mp hb with ⟨node, hnode, hsome⟩
  cases node with
  | FunctionDef name lineno end_lineno cs =>
    dsimp only at hsome
    cases hsome
    exact ⟨.FunctionDef name lineno end_lineno cs, name, hnode, rfl, rfl, rfl, rfl⟩
  | ClassDef name lineno end_lineno cs =>
    dsimp only at hsome
    cases hsome
    exact ⟨.ClassDef name lineno end_lineno cs, name, hnode, rfl, rfl, rfl, rfl⟩
  | Name id => cases hsome
  | Constant v => cases hsome
  | Other cs => cases hsome

/-- C9 witness: the block shape applied at a concrete one-function tree. -/
theorem parse_python_block_shape_witness :
    ∃ node name, node ∈ Parser.walkBFS [Parser.PyAst.FunctionDef "g" 1 1 []] ∧
      Parser.defNameOf node = some name ∧
      (({ tokens := ["g"],
          location := { file := "t.py", start_line := 1, end_line := 1 } } : CodeBlock)).tokens =
        name :: Parser.tokenize_python node ∧
      (({ tokens := ["g"],
          location := { file := "t.py", start_line := 1, end_line := 1 } } : CodeBlock)).tokens.head? =
        some name ∧
      (({ tokens := ["g"],
          location := { file := "t.py", start_line := 1, end_line := 1 } } : CodeBlock)).location.file =
        "t.py" :=
  parse_python_block_shape "t.py" (Parser.PyAst.FunctionDef "g" 1 1 [])
    { tokens := ["g"], location := { file := "t.py", start_line := 1, end_line := 1 } }
    (by simp [Parser.parse_python, Parser.walkBFS, Parser.PyAst.children,
      Parser.tokenize_python, Parser.tokenOf])

end Replicheck
